import Mathlib

/-
Verification development for the grid-arena bot game in src/main.py.

The source is a Python program: a Lark grammar, a bottom-up tree-walking
Transformer (class Evaluate), a disambiguation procedure (disambiguate)
and an action executor (execute_cmd), all operating on a list of entity
dictionaries.  This file gives a shallow embedding:

  * Entity dictionaries become the structure Entity.  Entity ids, produced
    by uuid4 in the source, are modelled as natural numbers; the freshness
    that uuid4 provides is carried as an explicit parameter or hypothesis.
  * Runtime values flowing through the Transformer become the inductive
    Value.  Python dictionaries that the program builds, namely positions
    (keys x and y) and command dictionaries (key type, and usually x, y),
    are modelled uniformly by the constructor vdict with optional fields.
    The predicate lambdas produced by the rules ALIVE, DEAD, PLAYER and
    ENEMY, and their combinations by and_expr and or_expr, are exactly the
    denotations of the little syntax PredE; no other lambdas arise in the
    source, so vpred carries a PredE.
  * A failing Python operation (TypeError, KeyError, IndexError,
    ValueError, ZeroDivisionError, unhandled exceptions in general) is
    modelled by the Option monad: none means the evaluation or the
    execution raised.
  * The numpy random draws (random.choice inside find, and the RANDOM
    rule) are abstracted as the parameter structure Rng; no claim below
    depends on the drawn value.
-/

/-- Grid width, constant GRID_WIDTH in the source. -/
def GRID_WIDTH : Int := 40

/-- Grid height, constant GRID_HEIGHT in the source. -/
def GRID_HEIGHT : Int := 20

/-- Number of turns per round, constant N_TURNS in the source. -/
def N_TURNS : Nat := 25

/-- Entity kind: the type field of an entity dictionary. -/
inductive EKind where
  | player
  | enemy
deriving DecidableEq, Repr

/-- Syntax of the agent predicates that the Transformer builds as Python
lambdas: the four find_expr atoms and their pointwise combinations built
by and_expr and or_expr when both operands are callable. -/
inductive PredE where
  | alive
  | dead
  | player
  | enemy
  | pand (p q : PredE)
  | por (p q : PredE)
deriving DecidableEq, Repr

/-- Command type: the value stored under the key type of a command
dictionary, one of move, shoot, eat, dup. -/
inductive CmdTy where
  | move
  | shoot
  | eat
  | dup
deriving DecidableEq, Repr

/-- Runtime values of the Transformer.  vdict ty x y models a Python
dictionary holding the key type when ty is some, the key x when the x
field is some, and likewise y; this covers both position dictionaries
(no type key) and command dictionaries. -/
inductive Value where
  | vint  : Int → Value
  | vbool : Bool → Value
  | vpred : PredE → Value
  | vdict : Option CmdTy → Option Value → Option Value → Value
deriving Repr

/-- Abstract syntax of the language, one constructor per grammar rule of
interest (rule names kept).  The wrapper rules expr, cmd, direction, num,
arith, dim, bool_expr and find_expr return their only child unchanged and
are flattened away.  The rule named variable becomes var because variable
is a Lean keyword; the rules named x and y become xDim and yDim. -/
inductive Expr where
  | intLit (n : Int)
  | tick
  | var (name : String)
  | if_expr (c t e : Expr)
  | sequence (bs : List Expr)
  | parens (e : Expr)
  | move (e : Expr)
  | shoot (e : Expr)
  | eat
  | dup (e : Expr)
  | pair (a b : Expr)
  | dir_plus (a b : Expr)
  | dir_minus (a b : Expr)
  | find (e : Expr)
  | up
  | right
  | down
  | left
  | here
  | random
  | alive
  | dead
  | player
  | enemy
  | gt_expr (a b : Expr)
  | lt_expr (a b : Expr)
  | eq_expr (a b : Expr)
  | and_expr (a b : Expr)
  | or_expr (a b : Expr)
  | not_expr (a : Expr)
  | plus (a b : Expr)
  | minus (a b : Expr)
  | modulo (a b : Expr)
  | absval (a : Expr)
  | xDim (a : Expr)
  | yDim (a : Expr)
deriving Repr

/-- A parsed program: the start rule, a list of assignments followed by
the main expression.  The quit_cmd alternative terminates the process and
is outside this model. -/
structure Prog where
  assigns : List (String × Expr)
  main : Expr
deriving Repr

/-- A variable store: a Python dictionary from names to values, modelled
as an association list whose keys are kept unique by upsert. -/
abbrev Store := List (String × Value)

/-- An entity dictionary.  The fields just_shot and just_dup model the
presence of the corresponding transient keys; active models the key that
players carry; code models the parsed program of a player (none for
enemies). -/
structure Entity where
  kind : EKind
  id : Nat
  x : Int
  y : Int
  dead : Bool
  score : Int
  active : Bool
  just_shot : Bool
  just_dup : Bool
  store : Store
  code : Option Prog
deriving Repr

/-- The random draws consumed by one evaluation: choice feeds
random.choice inside find, randX and randY feed the RANDOM rule. -/
structure Rng where
  choice : Nat
  randX : Nat
  randY : Nat
deriving Repr

/-- Evaluation of the predicate syntax: the Boolean the corresponding
Python lambda returns on an entity. -/
def PredE.evalP : PredE → Entity → Bool
  | .alive, e => !e.dead
  | .dead, e => e.dead
  | .player, e => e.kind == .player
  | .enemy, e => e.kind == .enemy
  | .pand p q, e => p.evalP e && q.evalP e
  | .por p q, e => p.evalP e || q.evalP e

/-- Python truthiness of a Value: zero is falsy, False is falsy, a lambda
is truthy, a dictionary is truthy when non-empty. -/
def truthy : Value → Bool
  | .vint n => n != 0
  | .vbool b => b
  | .vpred _ => true
  | .vdict t x y => t.isSome || x.isSome || y.isSome

/-- Coercion used by Python arithmetic and comparisons: an int is itself,
a bool counts as 1 or 0, everything else raises TypeError. -/
def toArithOpt : Value → Option Int
  | .vint n => some n
  | .vbool b => some (if b then 1 else 0)
  | _ => none

mutual

/-- Python equality on the values that can arise.  Ints and bools compare
numerically, dictionaries compare structurally; a lambda is a fresh object
each time one is built, so a comparison involving vpred yields False, and
so does any remaining cross-kind comparison.  Python equality never
raises. -/
def pyEqB : Value → Value → Bool
  | .vint m, .vint n => m == n
  | .vint m, .vbool b => m == (if b then 1 else 0)
  | .vbool b, .vint n => (if b then 1 else 0) == n
  | .vbool a, .vbool b => a == b
  | .vdict t1 x1 y1, .vdict t2 x2 y2 =>
      t1 == t2 && pyEqOptB x1 x2 && pyEqOptB y1 y2
  | _, _ => false

/-- Python equality lifted to an optional dictionary field: both absent is
equal, one absent is unequal. -/
def pyEqOptB : Option Value → Option Value → Bool
  | none, none => true
  | some a, some b => pyEqB a b
  | _, _ => false

end

/-- Python strict greater-than: defined on ints and bools, TypeError
otherwise. -/
def pyGt (a b : Value) : Option Bool := do
  let m ← toArithOpt a
  let n ← toArithOpt b
  some (decide (m > n))

/-- Python strict less-than: defined on ints and bools, TypeError
otherwise. -/
def pyLt (a b : Value) : Option Bool := do
  let m ← toArithOpt a
  let n ← toArithOpt b
  some (decide (m < n))

/-- Python addition on the values that can arise: ints and bools add,
anything else raises TypeError. -/
def pyAdd (a b : Value) : Option Value := do
  let m ← toArithOpt a
  let n ← toArithOpt b
  some (.vint (m + n))

/-- Python subtraction, same domain as pyAdd. -/
def pySub (a b : Value) : Option Value := do
  let m ← toArithOpt a
  let n ← toArithOpt b
  some (.vint (m - n))

/-- Python modulo: ZeroDivisionError on zero divisor, otherwise the
floor-division remainder, whose sign follows the divisor, which is
Int.fmod. -/
def pyMod (a b : Value) : Option Value := do
  let m ← toArithOpt a
  let n ← toArithOpt b
  if n = 0 then none else some (.vint (Int.fmod m n))

/-- Python abs on ints and bools. -/
def pyAbs (a : Value) : Option Value := do
  let m ← toArithOpt a
  some (.vint |m|)

/-- Whether a value is a Python callable: only the predicate lambdas are. -/
def isCallable : Value → Bool
  | .vpred _ => true
  | _ => false

/-- The and_expr rule: when both operands are callable it builds the
pointwise conjunction lambda, otherwise Python and returns the first
operand when falsy, else the second. -/
def andV : Value → Value → Value
  | .vpred p, .vpred q => .vpred (.pand p q)
  | a, b => if truthy a then b else a

/-- The or_expr rule: when both operands are callable it builds the
pointwise disjunction lambda, otherwise Python or returns the first
operand when truthy, else the second. -/
def orV : Value → Value → Value
  | .vpred p, .vpred q => .vpred (.por p q)
  | a, b => if truthy a then a else b

/-- Dictionary lookup in a store (first match; upsert keeps keys unique). -/
def storeLookup (s : Store) (k : String) : Option Value :=
  match s with
  | [] => none
  | (k1, v) :: rest => if k1 == k then some v else storeLookup rest k

/-- Dictionary write: replace the value of an existing key in place, else
append the new key, matching Python dict insertion order. -/
def upsert (s : Store) (k : String) (v : Value) : Store :=
  match s with
  | [] => [(k, v)]
  | (k1, v1) :: rest =>
      if k1 == k then (k1, v) :: rest else (k1, v1) :: upsert rest k v

/-- The HERE rule: position of the first entity carrying the acting id;
IndexError (none) when the id is absent. -/
def hereVal (entities : List Entity) (id_ : Nat) : Option Value :=
  (entities.find? (fun ent => ent.id == id_)).map
    (fun ent => .vdict none (some (.vint ent.x)) (some (.vint ent.y)))

/-- The move, shoot and dup rules build a dictionary literal with the key
type and then spread the child dictionary into it, so a type key already
present in the child wins; a non-dictionary child raises TypeError. -/
def cmdify (t : CmdTy) : Value → Option Value
  | .vdict t0 x y => some (.vdict (some (t0.getD t)) x y)
  | _ => none

/-- The dir_plus and dir_minus rules: subscript both children at the keys
x and y (TypeError on a non-dictionary, KeyError on a missing key) and
combine componentwise with the given Python operator. -/
def dirCombine (op : Value → Value → Option Value) : Value → Value → Option Value
  | .vdict _ (some ax) (some ay), .vdict _ (some bx) (some by_) => do
      let x ← op ax bx
      let y ← op ay by_
      some (.vdict none (some x) (some y))
  | _, _ => none

/-- The x and y rules subscript the child at the key and the enclosing num
rule applies int(); projDim composes both (useX selects the key). -/
def projDim (useX : Bool) : Value → Option Value
  | .vdict _ x y =>
      (if useX then x else y).bind (fun v => (toArithOpt v).map .vint)
  | _ => none

/-- Shift a position dictionary by a fixed offset; used by the four
compass rules UP, RIGHT, DOWN, LEFT, which read HERE and add the offset.
The dictionary produced by hereVal always carries both integer
coordinates, so the fallthrough is unreachable. -/
def dirShift : Value → Int → Int → Option Value
  | .vdict _ (some (.vint hx)) (some (.vint hy)), dx, dy =>
      some (.vdict none (some (.vint (hx + dx))) (some (.vint (hy + dy))))
  | _, _, _ => none

mutual

/-- Evaluation of one expression by the Transformer for a given turn
index, entity list, acting id, random draws and accumulated assignment
store.  Bottom-up: every child is evaluated, left to right, before its
parent; the first failure aborts the whole evaluation.  The var case
models lines 143 to 149 of the source: a hit in the assignment store
returns the binding, and the fallback path builds the list me and then
subscripts that list with a string, which raises TypeError
unconditionally, so it never yields a value. -/
def evalE (tick : Nat) (entities : List Entity) (id_ : Nat) (rng : Rng)
    (store : Store) : Expr → Option Value
  | .intLit n => some (.vint n)
  | .tick => some (.vint tick)
  | .var name =>
      match storeLookup store name with
      | some v => some v
      | none => none
  | .if_expr c t e => do
      let vc ← evalE tick entities id_ rng store c
      let vt ← evalE tick entities id_ rng store t
      let ve ← evalE tick entities id_ rng store e
      some (if truthy vc then vt else ve)
  | .sequence bs => do
      let vs ← evalList tick entities id_ rng store bs
      vs[tick % vs.length]?
  | .parens e => evalE tick entities id_ rng store e
  | .move e => do
      let v ← evalE tick entities id_ rng store e
      cmdify .move v
  | .shoot e => do
      let v ← evalE tick entities id_ rng store e
      cmdify .shoot v
  | .eat => some (.vdict (some .eat) none none)
  | .dup e => do
      let v ← evalE tick entities id_ rng store e
      cmdify .dup v
  | .pair a b => do
      let va ← evalE tick entities id_ rng store a
      let vb ← evalE tick entities id_ rng store b
      some (.vdict none (some va) (some vb))
  | .dir_plus a b => do
      let va ← evalE tick entities id_ rng store a
      let vb ← evalE tick entities id_ rng store b
      dirCombine pyAdd va vb
  | .dir_minus a b => do
      let va ← evalE tick entities id_ rng store a
      let vb ← evalE tick entities id_ rng store b
      dirCombine pySub va vb
  | .find e => do
      let v ← evalE tick entities id_ rng store e
      match v with
      | .vpred p =>
          let ms := (entities.filter (fun ent => p.evalP ent)).map
            (fun ent => Value.vdict none (some (.vint ent.x)) (some (.vint ent.y)))
          if ms.isEmpty then hereVal entities id_
          else ms[rng.choice % ms.length]?
      | _ => none
  | .up => (hereVal entities id_).bind (fun h => dirShift h 0 (-1))
  | .right => (hereVal entities id_).bind (fun h => dirShift h 1 0)
  | .down => (hereVal entities id_).bind (fun h => dirShift h 0 1)
  | .left => (hereVal entities id_).bind (fun h => dirShift h (-1) 0)
  | .here => hereVal entities id_
  | .random =>
      some (.vdict none (some (.vint ((rng.randX % 40 : Nat) : Int)))
        (some (.vint ((rng.randY % 20 : Nat) : Int))))
  | .alive => some (.vpred .alive)
  | .dead => some (.vpred .dead)
  | .player => some (.vpred .player)
  | .enemy => some (.vpred .enemy)
  | .gt_expr a b => do
      let va ← evalE tick entities id_ rng store a
      let vb ← evalE tick entities id_ rng store b
      (pyGt va vb).map .vbool
  | .lt_expr a b => do
      let va ← evalE tick entities id_ rng store a
      let vb ← evalE tick entities id_ rng store b
      (pyLt va vb).map .vbool
  | .eq_expr a b => do
      let va ← evalE tick entities id_ rng store a
      let vb ← evalE tick entities id_ rng store b
      some (.vbool (pyEqB va vb))
  | .and_expr a b => do
      let va ← evalE tick entities id_ rng store a
      let vb ← evalE tick entities id_ rng store b
      some (andV va vb)
  | .or_expr a b => do
      let va ← evalE tick entities id_ rng store a
      let vb ← evalE tick entities id_ rng store b
      some (orV va vb)
  | .not_expr a => do
      let va ← evalE tick entities id_ rng store a
      some (.vbool (!truthy va))
  | .plus a b => do
      let va ← evalE tick entities id_ rng store a
      let vb ← evalE tick entities id_ rng store b
      pyAdd va vb
  | .minus a b => do
      let va ← evalE tick entities id_ rng store a
      let vb ← evalE tick entities id_ rng store b
      pySub va vb
  | .modulo a b => do
      let va ← evalE tick entities id_ rng store a
      let vb ← evalE tick entities id_ rng store b
      pyMod va vb
  | .absval a => do
      let va ← evalE tick entities id_ rng store a
      pyAbs va
  | .xDim a => do
      let va ← evalE tick entities id_ rng store a
      projDim true va
  | .yDim a => do
      let va ← evalE tick entities id_ rng store a
      projDim false va

/-- Left-to-right evaluation of a list of children, failing as soon as one
child fails, exactly as the bottom-up Transformer does. -/
def evalList (tick : Nat) (entities : List Entity) (id_ : Nat) (rng : Rng)
    (store : Store) : List Expr → Option (List Value)
  | [] => some []
  | e :: es => do
      let v ← evalE tick entities id_ rng store e
      let vs ← evalList tick entities id_ rng store es
      some (v :: vs)

end

/-- The action produced by one evaluation: the cmd dictionary with the
accumulated assignment store attached under the key assign by main_expr. -/
structure ActionCmd where
  ty? : Option CmdTy
  x? : Option Value
  y? : Option Value
  assign : Store
deriving Repr

/-- Processing of the assignment prefix of a program: each assignment
evaluates its expression under the store built so far and upserts the
result, failing if the expression fails. -/
def evalAssigns (tick : Nat) (entities : List Entity) (id_ : Nat) (rng : Rng) :
    Store → List (String × Expr) → Option Store
  | s, [] => some s
  | s, (k, e) :: rest => do
      let v ← evalE tick entities id_ rng s e
      evalAssigns tick entities id_ rng (upsert s k v) rest

/-- Evaluation of a whole program for one turn: run the assignments, then
the main expression; main_expr stores the assignment dictionary into the
resulting value with a subscript assignment, which raises TypeError when
the value is not a dictionary. -/
def evalProg (tick : Nat) (entities : List Entity) (id_ : Nat) (rng : Rng)
    (p : Prog) : Option ActionCmd := do
  let s ← evalAssigns tick entities id_ rng [] p.assigns
  let v ← evalE tick entities id_ rng s p.main
  match v with
  | .vdict t x y => some ⟨t, x, y, s⟩
  | _ => none

/-- The dry-run test of one candidate: every tick in range N_TURNS must
evaluate without an exception (the trial results themselves are
discarded; the Transformer does not mutate the entity list). -/
def trialOk (entities : List Entity) (id_ : Nat) (rng : Rng) (p : Prog) : Bool :=
  (List.range N_TURNS).all (fun t => (evalProg t entities id_ rng p).isSome)

/-- The disambiguation procedure: iterate the candidate interpretations in
parser-emission order, dry-running each; the first that passes is
returned, and none is returned when all candidates fail. -/
def disambiguate (cands : List Prog) (entities : List Entity) (id_ : Nat)
    (rng : Rng) : Option Prog :=
  cands.find? (trialOk entities id_ rng)

/-- Update the element at a valid index with a function, leaving the list
unchanged when the index is out of range; functional rendering of an
in-place mutation of a Python list element at a known-valid index. -/
def listModify (l : List Entity) (i : Nat) (f : Entity → Entity) : List Entity :=
  match l[i]? with
  | none => l
  | some a => l.set i (f a)

/-- Resolve a Python list index, which may be negative (counting from the
end); none models IndexError. -/
def pyResolveIdx (len : Nat) (i : Int) : Option Nat :=
  if 0 ≤ i then
    if i < (len : Int) then some i.toNat else none
  else
    if 0 ≤ i + (len : Int) then some (i + (len : Int)).toNat else none

/-- Subscript update of a Python list at a possibly negative index,
applying a function to the element; none models IndexError. -/
def pySetAt (l : List Entity) (i : Int) (f : Entity → Entity) :
    Option (List Entity) :=
  (pyResolveIdx l.length i).map (fun j => listModify l j f)

/-- The expression sorted(targets, key, reverse)[0] of the shoot branch:
Python sort is stable, so the result is the first element of the list
whose key is extremal; equivalently, a left fold keeping the accumulator
unless a strictly better key appears.  btr k1 k2 says the key k1 beats
the key k2 (strictly less for an ascending sort, strictly greater for a
descending one); none models the IndexError on an empty target list. -/
def selectTarget (btr : Int → Int → Bool) (key : Entity → Int) :
    List Entity → Option Entity
  | [] => none
  | e :: es =>
      some (es.foldl (fun acc c => if btr (key c) (key acc) then c else acc) e)

/-- Shared tail of the four shoot directions: filter the candidates, pick
the extremal one, mark it dead and just shot, and award the shooter one
point.  An empty candidate list is the caught IndexError: the entity list
is returned unchanged.  The index lookup of the target by id mirrors
lines 357 to 359 of the source. -/
def shootAt (es : List Entity) (index : Nat) (p : Entity → Bool)
    (key : Entity → Int) (btr : Int → Int → Bool) : Option (List Entity) :=
  match selectTarget btr key (es.filter p) with
  | none => some es
  | some t =>
      match es.findIdx? (fun e => e.id == t.id) with
      | none => none
      | some ti =>
          some (listModify
            (listModify es ti (fun e => { e with dead := true, just_shot := true }))
            index (fun e => { e with score := e.score + 1 }))

/-- The body of the eat loop of execute_cmd, iterating over the snapshot
of co-located entities.  A dead one is deleted from the current list at
the position where its id sits, the running index is decremented
unconditionally (the source bug), and the score at the pythonic index is
bumped by 5; a live non-self one sets dead at the pythonic index and
stops.  none models an uncaught exception (IndexError from a negative
index that left the valid range, or ValueError from list.index). -/
def eatLoop (id_ : Nat) : List Entity → List Entity → Int → Option (List Entity)
  | [], es, _ => some es
  | ent :: rest, es, index =>
      if ent.dead then
        match es.findIdx? (fun e => e.id == ent.id) with
        | none => none
        | some j =>
            let es1 := es.eraseIdx j
            let index1 := index - 1
            match pySetAt es1 index1 (fun e => { e with score := e.score + 5 }) with
            | none => none
            | some es2 => eatLoop id_ rest es2 index1
      else if ent.id ≠ id_ then
        pySetAt es index (fun e => { e with dead := true })
      else
        eatLoop id_ rest es index

/-- One axis of the move branch: the target coordinate is compared with
the bounds (TypeError, hence none, when it is not an int or bool); an
out-of-range coordinate marks the entity dead and leaves the coordinate,
an in-range one updates the coordinate through setC. -/
def moveAxis (v : Value) (len : Int) (setC : Entity → Int → Entity)
    (e : Entity) : Option Entity :=
  match toArithOpt v with
  | none => none
  | some n =>
      some (if n > len - 1 ∨ n < 0 then { e with dead := true } else setC e n)

/-- The function execute_cmd of the source: apply one evaluated command to
the entity list on behalf of the acting id.  The fresh parameter stands
for the uuid4 value drawn in the dup branch.  First the assignment store
of the command is merged into the acting entity persistent store; a dead
actor then causes no further effect.  none models an uncaught Python
exception. -/
def execute_cmd (cmd : ActionCmd) (entities : List Entity) (id_ : Nat)
    (fresh : Nat) : Option (List Entity) :=
  match entities.findIdx? (fun e => e.id == id_) with
  | none => none
  | some index =>
      match entities[index]? with
      | none => none
      | some me0 =>
          let me := { me0 with
            store := cmd.assign.foldl (fun s kv => upsert s kv.1 kv.2) me0.store }
          let merged := entities.set index me
          if me.dead then some merged else
          match cmd.ty? with
          | none => none
          | some .move =>
              match cmd.x?, cmd.y? with
              | some cx, some cy =>
                  let onTile := merged.filter (fun e =>
                    pyEqB (.vint e.x) cx && pyEqB (.vint e.y) cy && !e.dead)
                  if onTile.length > 0 then some merged else do
                    let e1 ← moveAxis cx GRID_WIDTH (fun e n => { e with x := n }) me
                    let e2 ← moveAxis cy GRID_HEIGHT (fun e n => { e with y := n }) e1
                    some (merged.set index e2)
              | _, _ => none
          | some .shoot =>
              match cmd.x? with
              | none => none
              | some cx =>
                  match pyLt cx (.vint me.x) with
                  | none => none
                  | some true =>
                      shootAt merged index
                        (fun e => decide (e.x < me.x) && e.y == me.y)
                        (fun e => e.x) (fun a b => decide (a > b))
                  | some false =>
                      match pyGt cx (.vint me.x) with
                      | none => none
                      | some true =>
                          shootAt merged index
                            (fun e => decide (e.x > me.x) && e.y == me.y)
                            (fun e => e.x) (fun a b => decide (a < b))
                      | some false =>
                          match cmd.y? with
                          | none => none
                          | some cy =>
                              match pyLt cy (.vint me.y) with
                              | none => none
                              | some true =>
                                  shootAt merged index
                                    (fun e => decide (e.y < me.y) && e.x == me.x)
                                    (fun e => e.y) (fun a b => decide (a > b))
                              | some false =>
                                  match pyGt cy (.vint me.y) with
                                  | none => none
                                  | some true =>
                                      shootAt merged index
                                        (fun e => decide (e.y > me.y) && e.x == me.x)
                                        (fun e => e.y) (fun a b => decide (a < b))
                                  | some false => some merged
          | some .eat =>
              let snap := merged.filter (fun e => e.x == me.x && e.y == me.y)
              eatLoop id_ snap merged (index : Int)
          | some .dup =>
              match cmd.x?, cmd.y? with
              | some dx, some dy =>
                  let onTile := merged.filter (fun e =>
                    pyEqB (.vint e.x) dx && pyEqB (.vint e.y) dy)
                  if onTile.length > 0 then some merged else
                  let inX := match toArithOpt dx with
                    | some n => decide (0 ≤ n) && decide (n < GRID_WIDTH)
                    | none => false
                  let inY := match toArithOpt dy with
                    | some n => decide (0 ≤ n) && decide (n < GRID_HEIGHT)
                    | none => false
                  if inX && inY then
                    match toArithOpt dx, toArithOpt dy with
                    | some nx, some ny =>
                        let newP := { me with
                          x := nx, y := ny, active := false, id := fresh,
                          just_dup := true }
                        some (listModify (merged ++ [newP]) index
                          (fun e => { e with score := e.score - 1 }))
                    | _, _ => none
                  else some merged
              | _, _ => none

/-- Entity builder for concrete instances: kind, id, position, death flag,
with zero score, no flags, empty store and no program. -/
def mkE (k : EKind) (id : Nat) (x y : Int) (dead : Bool) : Entity :=
  ⟨k, id, x, y, dead, 0, false, false, false, [], none⟩

/-- Writing back the element already stored at an index leaves a list
unchanged. -/
theorem list_set_self {α : Type} (l : List α) (i : Nat) (a : α)
    (h : l[i]? = some a) : l.set i a = l := by
  induction l generalizing i with
  | nil => simp at h
  | cons c cs ih =>
      cases i with
      | zero => simp at h; simp [List.set, h]
      | succ j =>
          simp at h
          simp [List.set, ih j h]

/-- C1.  The claim says a variable reference falls back to the acting
agent persistent variables map when it is not in the current binding set.
The source (lines 148 to 149) builds the one-element list me and then
subscripts that list with a string, which raises TypeError, so the
fallback never returns the stored value: with the store of agent 7
binding a to 1 and an empty binding set, evaluating the reference fails;
with a binding present, the binding is returned. -/
theorem c1_variable_fallback_raises :
    evalE 0 [{ mkE .player 7 2 3 false with store := [(("a"), .vint 1)] }] 7
        ⟨0, 0, 0⟩ [] (.var ("a")) = none
    ∧ evalE 0 [{ mkE .player 7 2 3 false with store := [(("a"), .vint 1)] }] 7
        ⟨0, 0, 0⟩ [(("a"), .vint 2)] (.var ("a")) = some (.vint 2) :=
  ⟨rfl, rfl⟩

/-- C2.  The claim says each dead co-located agent eaten adds 5 to the
score of the eater and of no other agent.  In the source the running
index is decremented unconditionally on every deletion, even when the
corpse sits after the eater in the list, so the bonus lands on the wrong
entity: eater 0 at the origin eats the corpse of entity 2, and the 5
points go to entity 1, which sits at a different tile entirely, while the
eater keeps score 0. -/
theorem c2_eat_score_goes_to_wrong_agent :
    execute_cmd ⟨some .eat, none, none, []⟩
        [mkE .player 0 0 0 false, mkE .enemy 1 1 1 false, mkE .enemy 2 0 0 true]
        0 99
      = some [mkE .player 0 0 0 false,
              { mkE .enemy 1 1 1 false with score := 5 }] := rfl

/-- C9.  The claim says the action executor never raises.  With the eater
first in the list and two corpses on its tile, the unconditional index
decrement drives the pythonic index to minus 2 on a one-element list and
the score update raises IndexError, modelled by none. -/
theorem c9_eat_raises_indexerror :
    execute_cmd ⟨some .eat, none, none, []⟩
        [mkE .player 0 0 0 false, mkE .enemy 1 0 0 true, mkE .enemy 2 0 0 true]
        0 99
      = none := rfl

/-- C3 counterexample.  The claim says a move whose target is out of
bounds on either axis leaves both coordinates unchanged.  Moving from the
origin to x equal minus 1 (out of bounds) and y equal 5 (in bounds) kills
the agent but updates y to 5. -/
theorem c3_move_counterexample :
    execute_cmd ⟨some .move, some (.vint (-1)), some (.vint 5), []⟩
        [mkE .player 0 0 0 false] 0 99
      = some [{ mkE .player 0 0 0 false with dead := true, y := 5 }]
    ∧ ({ mkE .player 0 0 0 false with dead := true, y := 5 }).y ≠
        (mkE .player 0 0 0 false).y :=
  ⟨rfl, by decide⟩

/-- C7.  Evaluation is bottom-up: both branches of a conditional are
evaluated before one is selected, so a failing branch fails the whole
evaluation even when the condition would select the other branch. -/
theorem c7_if_requires_both_branches
    (tick : Nat) (entities : List Entity) (id_ : Nat) (rng : Rng)
    (store : Store) (c t e : Expr)
    (h : evalE tick entities id_ rng store t = none ∨
         evalE tick entities id_ rng store e = none) :
    evalE tick entities id_ rng store (.if_expr c t e) = none := by
  have hexp : evalE tick entities id_ rng store (.if_expr c t e) =
      (evalE tick entities id_ rng store c).bind (fun vc =>
        (evalE tick entities id_ rng store t).bind (fun vt =>
          (evalE tick entities id_ rng store e).bind (fun ve =>
            some (if truthy vc then vt else ve)))) := rfl
  rw [hexp]
  cases hc : evalE tick entities id_ rng store c with
  | none => rfl
  | some vc =>
      rcases h with ht | he
      · simp [ht]
      · cases ht2 : evalE tick entities id_ rng store t with
        | none => simp
        | some vt => simp [he]

/-- Witness for C7: the condition is the literal 1, truthy, selecting the
then branch, yet an unbound variable in the untaken else branch fails the
whole evaluation. -/
theorem c7_if_requires_both_branches_witness :
    evalE 0 [mkE .player 7 2 3 false] 7 ⟨0, 0, 0⟩ [] (.var ("z")) = none
    ∧ evalE 0 [mkE .player 7 2 3 false] 7 ⟨0, 0, 0⟩ []
        (.if_expr (.intLit 1) (.intLit 5) (.var ("z"))) = none :=
  ⟨rfl, c7_if_requires_both_branches 0 [mkE .player 7 2 3 false] 7 ⟨0, 0, 0⟩ []
    (.intLit 1) (.intLit 5) (.var ("z")) (Or.inr rfl)⟩

/-- When every element of a list evaluates, the child-list evaluation of
the Transformer succeeds. -/
theorem evalList_isSome_of_all (tick : Nat) (entities : List Entity)
    (id_ : Nat) (rng : Rng) (store : Store) :
    ∀ (bs : List Expr),
      (∀ b ∈ bs, (evalE tick entities id_ rng store b).isSome) →
      (evalList tick entities id_ rng store bs).isSome := by
  intro bs
  induction bs with
  | nil => intro _; rfl
  | cons e es ih =>
      intro h
      have he := h e (by simp)
      obtain ⟨v, hv⟩ := Option.isSome_iff_exists.mp he
      have hes := ih (fun b hb => h b (by simp [hb]))
      obtain ⟨vs, hvs⟩ := Option.isSome_iff_exists.mp hes
      have hexp : evalList tick entities id_ rng store (e :: es) =
          (evalE tick entities id_ rng store e).bind (fun v =>
            (evalList tick entities id_ rng store es).bind (fun vs =>
              some (v :: vs))) := rfl
      rw [hexp, hv, hvs]
      rfl

/-- A successful child-list evaluation preserves length and returns, at
each index, exactly the evaluation of the child at that index. -/
theorem evalList_length_get (tick : Nat) (entities : List Entity)
    (id_ : Nat) (rng : Rng) (store : Store) :
    ∀ (bs : List Expr) (vs : List Value),
      evalList tick entities id_ rng store bs = some vs →
      vs.length = bs.length ∧
      ∀ (k : Nat) (b : Expr), bs[k]? = some b →
        vs[k]? = (evalE tick entities id_ rng store b).map id ∧
        (evalE tick entities id_ rng store b).isSome := by
  intro bs
  induction bs with
  | nil =>
      intro vs h
      have : vs = [] := by
        have hexp : evalList tick entities id_ rng store [] = some [] := rfl
        rw [hexp] at h
        exact (Option.some_inj.mp h).symm
      subst this
      exact ⟨rfl, by intro k b hb; simp at hb⟩
  | cons e es ih =>
      intro vs h
      have hexp : evalList tick entities id_ rng store (e :: es) =
          (evalE tick entities id_ rng store e).bind (fun v =>
            (evalList tick entities id_ rng store es).bind (fun vs =>
              some (v :: vs))) := rfl
      rw [hexp] at h
      cases hv : evalE tick entities id_ rng store e with
      | none => rw [hv] at h; simp at h
      | some v =>
          rw [hv] at h
          cases hvs : evalList tick entities id_ rng store es with
          | none => rw [hvs] at h; simp at h
          | some vs0 =>
              rw [hvs] at h
              simp only [Option.some_bind] at h
              have hvseq : vs = v :: vs0 := (Option.some_inj.mp h).symm
              subst hvseq
              obtain ⟨hlen, hget⟩ := ih vs0 hvs
              refine ⟨by simp [hlen], ?_⟩
              intro k b hb
              cases k with
              | zero =>
                  simp at hb
                  subst hb
                  simp [hv]
              | succ j =>
                  simp at hb
                  have := hget j b (by simpa using hb)
                  simpa using this

/-- C8.  The sequence rule returns the branch indexed by the turn modulo
the branch count, and the selection is periodic with period the branch
count: when every branch evaluates, the sequence evaluates to the value
of the selected branch, and shifting the turn by the branch count selects
the same branch again. -/
theorem c8_sequence_round_robin (bs : List Expr) (tick : Nat)
    (entities : List Entity) (id_ : Nat) (rng : Rng) (store : Store)
    (hne : bs ≠ [])
    (hall : ∀ b ∈ bs, (evalE tick entities id_ rng store b).isSome) :
    (∃ b, bs[tick % bs.length]? = some b ∧
      evalE tick entities id_ rng store (.sequence bs) =
        evalE tick entities id_ rng store b) ∧
    (tick + bs.length) % bs.length = tick % bs.length := by
  refine ⟨?_, Nat.add_mod_right tick bs.length⟩
  obtain ⟨vs, hvs⟩ := Option.isSome_iff_exists.mp
    (evalList_isSome_of_all tick entities id_ rng store bs hall)
  obtain ⟨hlen, hget⟩ := evalList_length_get tick entities id_ rng store bs vs hvs
  have hpos : 0 < bs.length := List.length_pos.mpr hne
  have hidx : tick % bs.length < bs.length := Nat.mod_lt _ hpos
  refine ⟨bs.get ⟨tick % bs.length, hidx⟩, List.getElem?_eq_getElem hidx, ?_⟩
  have hexp : evalE tick entities id_ rng store (.sequence bs) =
      (evalList tick entities id_ rng store bs).bind (fun vs =>
        vs[tick % vs.length]?) := rfl
  rw [hexp, hvs]
  simp only [Option.some_bind]
  obtain ⟨hval, hsome⟩ := hget (tick % bs.length) (bs.get ⟨tick % bs.length, hidx⟩)
    (by simp)
  obtain ⟨w, hw⟩ := Option.isSome_iff_exists.mp hsome
  rw [hlen, hval, hw]
  rfl

/-- Witness for C8: a two-branch sequence at turn 3 selects index 1 and
the turn shifted by 2 selects the same index. -/
theorem c8_sequence_round_robin_witness :
    (∃ b, ([Expr.intLit 10, Expr.intLit 20] : List Expr)[3 % 2]? = some b ∧
      evalE 3 [] 7 ⟨0, 0, 0⟩ [] (.sequence [.intLit 10, .intLit 20]) =
        evalE 3 [] 7 ⟨0, 0, 0⟩ [] b) ∧
    (3 + 2) % 2 = 3 % 2 :=
  c8_sequence_round_robin [.intLit 10, .intLit 20] 3 [] 7 ⟨0, 0, 0⟩ []
    (by simp) (by intro b hb; simp at hb; rcases hb with h | h <;> subst h <;> rfl)

/-- C10.  The not rule negates Python truthiness, so applied to a
predicate value it yields the Boolean false (every lambda is truthy), not
the pointwise negated predicate; consequently find of (not alive) raises
(a Boolean is not callable) while find of dead succeeds, so the two are
not equivalent on any agent set; and_expr and or_expr on two predicate
operands, by contrast, build the pointwise combination. -/
theorem c10_not_yields_bool_not_pred :
    (∀ (tick : Nat) (entities : List Entity) (id_ : Nat) (rng : Rng)
        (store : Store) (e : Expr) (p : PredE),
      evalE tick entities id_ rng store e = some (.vpred p) →
      evalE tick entities id_ rng store (.not_expr e) = some (.vbool false)) ∧
    (∀ q : PredE, (Value.vbool false) ≠ .vpred q) ∧
    (∀ (tick : Nat) (entities : List Entity) (id_ : Nat) (rng : Rng)
        (store : Store),
      evalE tick entities id_ rng store (.find (.not_expr .alive)) = none) ∧
    (∀ (tick : Nat) (entities : List Entity) (id_ : Nat) (rng : Rng)
        (store : Store),
      (hereVal entities id_).isSome →
      (evalE tick entities id_ rng store (.find .dead)).isSome) ∧
    (∀ (tick : Nat) (entities : List Entity) (id_ : Nat) (rng : Rng)
        (store : Store) (e1 e2 : Expr) (p q : PredE),
      evalE tick entities id_ rng store e1 = some (.vpred p) →
      evalE tick entities id_ rng store e2 = some (.vpred q) →
      evalE tick entities id_ rng store (.and_expr e1 e2) =
        some (.vpred (.pand p q)) ∧
      evalE tick entities id_ rng store (.or_expr e1 e2) =
        some (.vpred (.por p q))) ∧
    (∀ (p q : PredE) (ent : Entity),
      (PredE.pand p q).evalP ent = (p.evalP ent && q.evalP ent) ∧
      (PredE.por p q).evalP ent = (p.evalP ent || q.evalP ent)) := by
  refine ⟨?_, ?_, ?_, ?_, ?_, ?_⟩
  · intro tick entities id_ rng store e p h
    have hexp : evalE tick entities id_ rng store (.not_expr e) =
        (evalE tick entities id_ rng store e).bind (fun va =>
          some (.vbool (!truthy va))) := rfl
    rw [hexp, h]
    rfl
  · intro q h
    exact Value.noConfusion h
  · intro tick entities id_ rng store
    rfl
  · intro tick entities id_ rng store hh
    have hexp : evalE tick entities id_ rng store (.find .dead) =
        (let ms := (entities.filter (fun ent => PredE.evalP .dead ent)).map
            (fun ent => Value.vdict none (some (.vint ent.x)) (some (.vint ent.y)));
         if ms.isEmpty then hereVal entities id_
         else ms[rng.choice % ms.length]?) := rfl
    rw [hexp]
    by_cases he : ((entities.filter (fun ent => PredE.evalP .dead ent)).map
        (fun ent => Value.vdict none (some (.vint ent.x)) (some (.vint ent.y)))).isEmpty
    · simp only [he, if_true]
      exact hh
    · simp only [he, if_false]
      have hne : ((entities.filter (fun ent => PredE.evalP .dead ent)).map
          (fun ent => Value.vdict none (some (.vint ent.x)) (some (.vint ent.y)))) ≠ [] := by
        intro hnil
        rw [hnil] at he
        exact he rfl
      have hpos : 0 < ((entities.filter (fun ent => PredE.evalP .dead ent)).map
          (fun ent => Value.vdict none (some (.vint ent.x)) (some (.vint ent.y)))).length :=
        List.length_pos.mpr hne
      rw [List.getElem?_eq_getElem (Nat.mod_lt _ hpos)]
      rfl
  · intro tick entities id_ rng store e1 e2 p q h1 h2
    constructor
    · have hexp : evalE tick entities id_ rng store (.and_expr e1 e2) =
          (evalE tick entities id_ rng store e1).bind (fun va =>
            (evalE tick entities id_ rng store e2).bind (fun vb =>
              some (andV va vb))) := rfl
      rw [hexp, h1, h2]
      rfl
    · have hexp : evalE tick entities id_ rng store (.or_expr e1 e2) =
          (evalE tick entities id_ rng store e1).bind (fun va =>
            (evalE tick entities id_ rng store e2).bind (fun vb =>
              some (orV va vb))) := rfl
      rw [hexp, h1, h2]
      rfl
  · intro p q ent
    exact ⟨rfl, rfl⟩

/-- Witness for C10: on a concrete two-agent set, find of (not alive)
fails while find of dead succeeds. -/
theorem c10_not_yields_bool_not_pred_witness :
    evalE 0 [mkE .player 7 2 3 false, mkE .enemy 8 4 9 true] 7 ⟨0, 0, 0⟩ []
        (.find (.not_expr .alive)) = none
    ∧ (evalE 0 [mkE .player 7 2 3 false, mkE .enemy 8 4 9 true] 7 ⟨0, 0, 0⟩ []
        (.find .dead)).isSome :=
  ⟨c10_not_yields_bool_not_pred.2.2.1 0
      [mkE .player 7 2 3 false, mkE .enemy 8 4 9 true] 7 ⟨0, 0, 0⟩ [],
    c10_not_yields_bool_not_pred.2.2.2.1 0
      [mkE .player 7 2 3 false, mkE .enemy 8 4 9 true] 7 ⟨0, 0, 0⟩ [] rfl⟩

/-- The first success returned by find: the returned element sits at an
index whose every predecessor fails the test. -/
theorem find_first_success {α : Type} (p : α → Bool) :
    ∀ (l : List α) (a : α), l.find? p = some a →
      ∃ i : Nat, l[i]? = some a ∧ p a = true ∧
        ∀ j : Nat, j < i → ∀ q, l[j]? = some q → p q = false := by
  intro l
  induction l with
  | nil => intro a h; simp at h
  | cons c cs ih =>
      intro a h
      cases hc : p c with
      | true =>
          rw [List.find?_cons_of_pos _ hc] at h
          have hac : c = a := Option.some_inj.mp h
          subst hac
          exact ⟨0, by simp, hc, by intro j hj; exact absurd hj (Nat.not_lt_zero j)⟩
      | false =>
          rw [List.find?_cons_of_neg _ (by simp [hc])] at h
          obtain ⟨i, hi, hp, hprev⟩ := ih a h
          refine ⟨i + 1, by simpa using hi, hp, ?_⟩
          intro j hj q hq
          cases j with
          | zero =>
              simp at hq
              subst hq
              exact hc
          | succ j0 =>
              exact hprev j0 (by omega) q (by simpa using hq)

/-- C4.  The Disambiguator returns the first candidate, in emission
order, whose every one of the N_TURNS trial turns evaluates without
error (results discarded: the trial never mutates the entity list), and
returns none exactly when every candidate fails on some turn. -/
theorem c4_disambiguate_first_success (cands : List Prog)
    (entities : List Entity) (id_ : Nat) (rng : Rng) :
    (∀ p, disambiguate cands entities id_ rng = some p →
      ∃ i : Nat, cands[i]? = some p ∧ trialOk entities id_ rng p = true ∧
        ∀ j : Nat, j < i → ∀ q, cands[j]? = some q →
          trialOk entities id_ rng q = false) ∧
    (disambiguate cands entities id_ rng = none ↔
      ∀ p ∈ cands, ∃ t, t < N_TURNS ∧ evalProg t entities id_ rng p = none) := by
  constructor
  · intro p h
    exact find_first_success _ cands p h
  · have hexp : disambiguate cands entities id_ rng =
        cands.find? (trialOk entities id_ rng) := rfl
    rw [hexp, List.find?_eq_none]
    constructor
    · intro h p hp
      have hnot := h p hp
      simp only [trialOk, List.all_eq_true, not_forall] at hnot
      obtain ⟨t, ht, hnone⟩ := hnot
      refine ⟨t, by simpa using ht, ?_⟩
      simpa [Option.not_isSome_iff_eq_none] using hnone
    · intro h p hp
      obtain ⟨t, htlt, hnone⟩ := h p hp
      simp only [trialOk, List.all_eq_true, not_forall]
      refine ⟨t, by simpa using htlt, ?_⟩
      simp [hnone]

/-- Witness for C4: given a failing first candidate (an unbound variable)
and a sound second one, the Disambiguator selects the second, and the
first-failure decomposition holds at that instance. -/
theorem c4_disambiguate_first_success_witness :
    ∃ i : Nat, ([(⟨[], .var ("q")⟩ : Prog), ⟨[], .eat⟩] : List Prog)[i]? =
        some ⟨[], .eat⟩ ∧
      trialOk [mkE .player 7 2 3 false] 7 ⟨0, 0, 0⟩ ⟨[], .eat⟩ = true ∧
      ∀ j : Nat, j < i → ∀ q,
        ([(⟨[], .var ("q")⟩ : Prog), ⟨[], .eat⟩] : List Prog)[j]? = some q →
        trialOk [mkE .player 7 2 3 false] 7 ⟨0, 0, 0⟩ q = false :=
  (c4_disambiguate_first_success [⟨[], .var ("q")⟩, ⟨[], .eat⟩]
    [mkE .player 7 2 3 false] 7 ⟨0, 0, 0⟩).1 ⟨[], .eat⟩ rfl

/-- C3 amended.  A move by a live agent onto an unoccupied tile whose
target is out of bounds on at least one axis kills the agent, and the
axes are handled independently: the coordinate of an out-of-bounds axis
is kept, while the coordinate of an in-bounds axis is still updated (so
the position is not, in general, fully unchanged). -/
theorem c3_move_out_of_bounds (entities : List Entity) (id_ i : Nat)
    (fresh : Nat) (mx my : Int) (mover : Entity)
    (hfind : entities.findIdx? (fun e => e.id == id_) = some i)
    (hget : entities[i]? = some mover)
    (halive : mover.dead = false)
    (hocc : entities.filter (fun e =>
      pyEqB (.vint e.x) (.vint mx) && pyEqB (.vint e.y) (.vint my) && !e.dead) = [])
    (hout : mx > GRID_WIDTH - 1 ∨ mx < 0 ∨ my > GRID_HEIGHT - 1 ∨ my < 0) :
    execute_cmd ⟨some .move, some (.vint mx), some (.vint my), []⟩ entities id_ fresh
      = some (entities.set i
          { mover with
            x := if mx > GRID_WIDTH - 1 ∨ mx < 0 then mover.x else mx,
            y := if my > GRID_HEIGHT - 1 ∨ my < 0 then mover.y else my,
            dead := true }) := by
  unfold execute_cmd
  rw [hfind]
  dsimp only
  rw [hget]
  dsimp only
  dsimp only [List.foldl]
  rw [list_set_self entities i mover hget]
  simp only [halive]
  rw [hocc]
  simp only [List.length_nil, gt_iff_lt, Nat.lt_irrefl, if_false]
  simp only [moveAxis, toArithOpt, Option.some_bind]
  by_cases hx : mx > GRID_WIDTH - 1 ∨ mx < 0
  · by_cases hy : my > GRID_HEIGHT - 1 ∨ my < 0
    · simp [hx, hy]
    · simp [hx, hy]
  · by_cases hy : my > GRID_HEIGHT - 1 ∨ my < 0
    · simp [hx, hy]
    · exfalso
      rcases hout with h | h | h | h
      · exact hx (Or.inl h)
      · exact hx (Or.inr h)
      · exact hy (Or.inl h)
      · exact hy (Or.inr h)

/-- Witness for the amended C3: a lone live agent at position 2 2 moving
to 50 5 dies, keeps x, and has y updated to 5. -/
theorem c3_move_out_of_bounds_witness :
    execute_cmd ⟨some .move, some (.vint 50), some (.vint 5), []⟩
        [mkE .player 3 2 2 false] 3 99
      = some ([mkE .player 3 2 2 false].set 0
          { mkE .player 3 2 2 false with
            x := if (50 : Int) > GRID_WIDTH - 1 ∨ (50 : Int) < 0 then
              (mkE .player 3 2 2 false).x else 50,
            y := if (5 : Int) > GRID_HEIGHT - 1 ∨ (5 : Int) < 0 then
              (mkE .player 3 2 2 false).y else 5,
            dead := true }) :=
  c3_move_out_of_bounds [mkE .player 3 2 2 false] 3 0 99 50 5
    (mkE .player 3 2 2 false) rfl rfl rfl rfl
    (Or.inl (by norm_num [GRID_WIDTH]))

/-- The new entity created by the dup branch: a deep copy of the
originator placed at the target, deactivated, given the fresh id and
flagged just duplicated. -/
def dupChild (origin : Entity) (dx dy : Int) (fresh : Nat) : Entity :=
  { origin with x := dx, y := dy, active := false, id := fresh, just_dup := true }

/-- listModify never changes the length of a list. -/
theorem listModify_length (l : List Entity) (i : Nat) (f : Entity → Entity) :
    (listModify l i f).length = l.length := by
  unfold listModify
  cases l[i]? with
  | none => rfl
  | some a => simp [List.length_set]

/-- C6.  A dup onto an out-of-bounds or occupied tile (occupied by any
entity, dead or alive) leaves the entity list unchanged; otherwise
exactly one new entity is appended: a copy of the originator inheriting
its program and variable store, placed at the target, inactive, carrying
the fresh id (distinct from every existing id) and flagged just
duplicated, while the originator loses one score point. -/
theorem c6_dup_spec (entities : List Entity) (id_ i fresh : Nat)
    (dx dy : Int) (origin : Entity)
    (hfind : entities.findIdx? (fun e => e.id == id_) = some i)
    (hget : entities[i]? = some origin)
    (halive : origin.dead = false)
    (hfresh : ∀ e ∈ entities, e.id ≠ fresh) :
    ((¬ (0 ≤ dx ∧ dx < GRID_WIDTH ∧ 0 ≤ dy ∧ dy < GRID_HEIGHT) ∨
        ∃ e ∈ entities, e.x = dx ∧ e.y = dy) →
      execute_cmd ⟨some .dup, some (.vint dx), some (.vint dy), []⟩
          entities id_ fresh = some entities) ∧
    ((0 ≤ dx ∧ dx < GRID_WIDTH ∧ 0 ≤ dy ∧ dy < GRID_HEIGHT) →
      (∀ e ∈ entities, ¬ (e.x = dx ∧ e.y = dy)) →
      execute_cmd ⟨some .dup, some (.vint dx), some (.vint dy), []⟩
          entities id_ fresh
        = some (listModify (entities ++ [dupChild origin dx dy fresh]) i
            (fun e => { e with score := e.score - 1 })) ∧
      (listModify (entities ++ [dupChild origin dx dy fresh]) i
          (fun e => { e with score := e.score - 1 })).length
        = entities.length + 1 ∧
      (listModify (entities ++ [dupChild origin dx dy fresh]) i
          (fun e => { e with score := e.score - 1 }))[entities.length]?
        = some (dupChild origin dx dy fresh) ∧
      (dupChild origin dx dy fresh).code = origin.code ∧
      (dupChild origin dx dy fresh).store = origin.store ∧
      (dupChild origin dx dy fresh).x = dx ∧
      (dupChild origin dx dy fresh).y = dy ∧
      (dupChild origin dx dy fresh).active = false ∧
      (dupChild origin dx dy fresh).just_dup = true ∧
      (∀ e ∈ entities, e.id ≠ (dupChild origin dx dy fresh).id)) := by
  have hi : i < entities.length := by
    by_contra hnot
    rw [List.getElem?_eq_none (Nat.le_of_not_lt hnot)] at hget
    exact Option.noConfusion hget
  constructor
  · intro hno
    unfold execute_cmd
    rw [hfind]
    dsimp only
    rw [hget]
    dsimp only
    dsimp only [List.foldl]
    rw [list_set_self entities i origin hget]
    simp only [halive]
    by_cases hocc2 : (entities.filter (fun e =>
        pyEqB (.vint e.x) (.vint dx) && pyEqB (.vint e.y) (.vint dy))).length > 0
    · simp [hocc2]
    · simp only [hocc2, if_false]
      have hnb : ¬ (0 ≤ dx ∧ dx < GRID_WIDTH ∧ 0 ≤ dy ∧ dy < GRID_HEIGHT) := by
        rcases hno with hnb | ⟨e, he, hex, hey⟩
        · exact hnb
        · exfalso
          apply hocc2
          have hmem : e ∈ entities.filter (fun e =>
              pyEqB (.vint e.x) (.vint dx) && pyEqB (.vint e.y) (.vint dy)) := by
            rw [List.mem_filter]
            refine ⟨he, ?_⟩
            simp [pyEqB, hex, hey]
          have := List.length_pos.mpr (List.ne_nil_of_mem hmem)
          omega
      dsimp only [toArithOpt]
      have hcond : ((decide (0 ≤ dx) && decide (dx < GRID_WIDTH)) &&
          (decide (0 ≤ dy) && decide (dy < GRID_HEIGHT))) = false := by
        by_contra hc
        apply hnb
        have := Bool.of_not_eq_false hc
        simp only [Bool.and_eq_true, decide_eq_true_eq] at this
        exact ⟨this.1.1, this.1.2, this.2.1, this.2.2⟩
      rw [hcond]
      simp
  · intro hin hnocc
    have hfil : entities.filter (fun e =>
        pyEqB (.vint e.x) (.vint dx) && pyEqB (.vint e.y) (.vint dy)) = [] := by
      rw [List.filter_eq_nil_iff]
      intro e he
      simp only [pyEqB, Bool.and_eq_true, beq_iff_eq]
      intro hc
      exact hnocc e he ⟨hc.1, hc.2⟩
    refine ⟨?_, ?_, ?_, rfl, rfl, rfl, rfl, rfl, rfl, ?_⟩
    · unfold execute_cmd
      rw [hfind]
      dsimp only
      rw [hget]
      dsimp only
      dsimp only [List.foldl]
      rw [list_set_self entities i origin hget]
      simp only [halive]
      rw [hfil]
      simp only [List.length_nil, gt_iff_lt, Nat.lt_irrefl, if_false]
      dsimp only [toArithOpt]
      have hcond : ((decide (0 ≤ dx) && decide (dx < GRID_WIDTH)) &&
          (decide (0 ≤ dy) && decide (dy < GRID_HEIGHT))) = true := by
        simp only [Bool.and_eq_true, decide_eq_true_eq]
        exact ⟨⟨hin.1, hin.2.1⟩, hin.2.2.1, hin.2.2.2⟩
      rw [hcond]
      simp only [if_true]
      simp [dupChild, halive]
    · rw [listModify_length, List.length_append]
      rfl
    · unfold listModify
      have hset : ((entities ++ [dupChild origin dx dy fresh]).set i
          ({ ((entities ++ [dupChild origin dx dy fresh]).get ⟨i, by simp; omega⟩) with score := ((entities ++ [dupChild origin dx dy fresh]).get ⟨i, by simp; omega⟩).score - 1 }))[entities.length]?
          = (entities ++ [dupChild origin dx dy fresh])[entities.length]? := by
        apply List.getElem?_set_ne
        omega
      cases hg : (entities ++ [dupChild origin dx dy fresh])[i]? with
      | none =>
          exfalso
          rw [List.getElem?_eq_none_iff] at hg
          simp at hg
          omega
      | some a =>
          rw [List.getElem?_set_ne (by omega)]
          rw [List.getElem?_concat_length]
    · intro e he
      exact hfresh e he

/-- Witness for C6: a lone agent duplicating onto the free in-bounds tile
3 4 appends the copy and pays one score point. -/
theorem c6_dup_spec_witness :
    execute_cmd ⟨some .dup, some (.vint 3), some (.vint 4), []⟩
        [mkE .player 3 0 0 false] 3 42
      = some (listModify ([mkE .player 3 0 0 false] ++
          [dupChild (mkE .player 3 0 0 false) 3 4 42]) 0
          (fun e => { e with score := e.score - 1 })) :=
  ((c6_dup_spec [mkE .player 3 0 0 false] 3 0 42 3 4 (mkE .player 3 0 0 false)
      rfl rfl rfl (by decide)).2
    (by norm_num [GRID_WIDTH, GRID_HEIGHT]) (by decide)).1

/-- The four firing directions a shoot command can resolve to. -/
inductive SDir where
  | left
  | right
  | up
  | down
deriving DecidableEq, Repr

/-- Direction resolution of the shoot branch: the target point is
compared with the shooter position in the fixed order x smaller, x
greater, y smaller, y greater; equality on both axes resolves to no
direction (the no-op case). -/
def resolveShootDir (sx sy tx ty : Int) : Option SDir :=
  if tx < sx then some .left
  else if tx > sx then some .right
  else if ty < sy then some .up
  else if ty > sy then some .down
  else none

/-- Candidate test of the shoot branch: strictly on the resolved side
along the firing axis and sharing the shooter coordinate on the other
axis. -/
def sCand : SDir → Entity → Entity → Bool
  | .left, s, e => decide (e.x < s.x) && e.y == s.y
  | .right, s, e => decide (e.x > s.x) && e.y == s.y
  | .up, s, e => decide (e.y < s.y) && e.x == s.x
  | .down, s, e => decide (e.y > s.y) && e.x == s.x

/-- Distance from the shooter along the firing axis, positive on
candidates. -/
def sDist : SDir → Entity → Entity → Int
  | .left, s, e => s.x - e.x
  | .right, s, e => e.x - s.x
  | .up, s, e => s.y - e.y
  | .down, s, e => e.y - s.y

/-- The folded pick of selectTarget stays within the accumulator and the
scanned elements. -/
theorem selectPick_mem (btr : Int → Int → Bool) (key : Entity → Int) :
    ∀ (es : List Entity) (acc : Entity),
      es.foldl (fun a c => if btr (key c) (key a) then c else a) acc ∈ acc :: es := by
  intro es
  induction es with
  | nil => intro acc; simp
  | cons c cs ih =>
      intro acc
      simp only [List.foldl_cons]
      have h2 := ih (if btr (key c) (key acc) then c else acc)
      rcases List.mem_cons.mp h2 with h | h
      · rw [h]
        by_cases hb : btr (key c) (key acc) = true
        · simp [hb]
        · simp [hb]
      · simp [List.mem_cons, h]

/-- A returned target is one of the candidates. -/
theorem selectTarget_mem (btr : Int → Int → Bool) (key : Entity → Int) :
    ∀ (l : List Entity) (t : Entity), selectTarget btr key l = some t → t ∈ l := by
  intro l t h
  cases l with
  | nil => exact Option.noConfusion h
  | cons e es =>
      have hexp : selectTarget btr key (e :: es) =
          some (es.foldl (fun a c => if btr (key c) (key a) then c else a) e) := rfl
      rw [hexp] at h
      have heq := Option.some_inj.mp h
      rw [← heq]
      exact selectPick_mem btr key es e

/-- With the strictly-greater comparison, the folded pick maximises the
key over the accumulator and every scanned element. -/
theorem selectPick_max (key : Entity → Int) :
    ∀ (es : List Entity) (acc : Entity),
      key acc ≤ key (es.foldl
        (fun a c => if decide (key c > key a) then c else a) acc) ∧
      ∀ c ∈ es, key c ≤ key (es.foldl
        (fun a c => if decide (key c > key a) then c else a) acc) := by
  intro es
  induction es with
  | nil =>
      intro acc
      refine ⟨le_refl _, ?_⟩
      intro c hc
      simp at hc
  | cons c cs ih =>
      intro acc
      simp only [List.foldl_cons]
      obtain ⟨h1, h2⟩ := ih (if decide (key c > key acc) then c else acc)
      have hacc : key acc ≤ key (if decide (key c > key acc) then c else acc) := by
        by_cases hb : key c > key acc
        · simp [hb]
          omega
        · simp [hb]
      have hc : key c ≤ key (if decide (key c > key acc) then c else acc) := by
        by_cases hb : key c > key acc
        · simp [hb]
        · simp [hb]
          omega
      refine ⟨le_trans hacc h1, ?_⟩
      intro d hd
      rcases List.mem_cons.mp hd with h | h
      · rw [h]
        exact le_trans hc h1
      · exact h2 d h

/-- With the strictly-smaller comparison, the folded pick minimises the
key over the accumulator and every scanned element. -/
theorem selectPick_min (key : Entity → Int) :
    ∀ (es : List Entity) (acc : Entity),
      key (es.foldl
        (fun a c => if decide (key c < key a) then c else a) acc) ≤ key acc ∧
      ∀ c ∈ es, key (es.foldl
        (fun a c => if decide (key c < key a) then c else a) acc) ≤ key c := by
  intro es
  induction es with
  | nil =>
      intro acc
      refine ⟨le_refl _, ?_⟩
      intro c hc
      simp at hc
  | cons c cs ih =>
      intro acc
      simp only [List.foldl_cons]
      obtain ⟨h1, h2⟩ := ih (if decide (key c < key acc) then c else acc)
      have hacc : key (if decide (key c < key acc) then c else acc) ≤ key acc := by
        by_cases hb : key c < key acc
        · simp [hb]
          omega
        · simp [hb]
      have hc : key (if decide (key c < key acc) then c else acc) ≤ key c := by
        by_cases hb : key c < key acc
        · simp [hb]
        · simp [hb]
          omega
      refine ⟨le_trans h1 hacc, ?_⟩
      intro d hd
      rcases List.mem_cons.mp hd with h | h
      · rw [h]
        exact le_trans h1 hc
      · exact h2 d h

/-- A target returned under the descending sort has the maximal key. -/
theorem selectTarget_max (key : Entity → Int) (l : List Entity) (t : Entity)
    (h : selectTarget (fun a b => decide (a > b)) key l = some t) :
    ∀ c ∈ l, key c ≤ key t := by
  cases l with
  | nil => exact absurd h (by simp [selectTarget])
  | cons e es =>
      have hexp : selectTarget (fun a b => decide (a > b)) key (e :: es) =
          some (es.foldl (fun a c => if decide (key c > key a) then c else a) e) := rfl
      rw [hexp] at h
      have heq := Option.some_inj.mp h
      obtain ⟨h1, h2⟩ := selectPick_max key es e
      intro c hc
      rcases List.mem_cons.mp hc with hh | hh
      · rw [hh, ← heq]
        exact h1
      · rw [← heq]
        exact h2 c hh

/-- A target returned under the ascending sort has the minimal key. -/
theorem selectTarget_min (key : Entity → Int) (l : List Entity) (t : Entity)
    (h : selectTarget (fun a b => decide (a < b)) key l = some t) :
    ∀ c ∈ l, key t ≤ key c := by
  cases l with
  | nil => exact absurd h (by simp [selectTarget])
  | cons e es =>
      have hexp : selectTarget (fun a b => decide (a < b)) key (e :: es) =
          some (es.foldl (fun a c => if decide (key c < key a) then c else a) e) := rfl
      rw [hexp] at h
      have heq := Option.some_inj.mp h
      obtain ⟨h1, h2⟩ := selectPick_min key es e
      intro c hc
      rcases List.mem_cons.mp hc with hh | hh
      · rw [hh, ← heq]
        exact h1
      · rw [← heq]
        exact h2 c hh

/-- Index lookup by id of a member of a list with pairwise distinct ids:
the lookup lands exactly on that member. -/
theorem findIdx_by_id (t : Entity) :
    ∀ (es : List Entity), (es.map (fun e => e.id)).Nodup → t ∈ es →
      ∃ ti : Nat, es[ti]? = some t ∧
        es.findIdx? (fun e => e.id == t.id) = some ti := by
  intro es
  induction es with
  | nil =>
      intro _ h
      simp at h
  | cons c cs ih =>
      intro hnodup ht
      rcases List.mem_cons.mp ht with h | h
      · refine ⟨0, by simp [h.symm], ?_⟩
        rw [List.findIdx?_cons]
        simp [h]
      · have hcs : t.id ∈ cs.map (fun e => e.id) := List.mem_map_of_mem _ h
        have hhead : c.id ∉ cs.map (fun e => e.id) :=
          (List.nodup_cons.mp (by simpa using hnodup)).1
        have hcid : (c.id == t.id) = false := by
          by_contra hb
          have hbt : c.id = t.id := by
            have := Bool.of_not_eq_false hb
            simpa using this
          rw [hbt] at hhead
          exact hhead hcs
        obtain ⟨ti, h1, h2⟩ := ih
          (List.nodup_cons.mp (by simpa using hnodup)).2 h
        refine ⟨ti + 1, by simpa using h1, ?_⟩
        rw [List.findIdx?_cons, hcid]
        simp only [Bool.false_eq_true, if_false]
        rw [show (0 + 1 : Nat) = 0 + 1 from rfl, List.findIdx?_succ, h2]
        rfl

/-- The shared shoot tail on an empty candidate list is the caught
IndexError: no change. -/
theorem shootAt_no_candidate (es : List Entity) (index : Nat)
    (p : Entity → Bool) (key : Entity → Int) (btr : Int → Int → Bool)
    (h : es.filter p = []) : shootAt es index p key btr = some es := by
  unfold shootAt
  rw [h]
  rfl

/-- The shared shoot tail under the descending sort hits a candidate of
maximal key: it is marked dead and just shot and the shooter at the
given index gains one point. -/
theorem shootAt_hit_max (es : List Entity) (index : Nat) (p : Entity → Bool)
    (key : Entity → Int)
    (hnodup : (es.map (fun e => e.id)).Nodup)
    (hne : es.filter p ≠ []) :
    ∃ (t : Entity) (ti : Nat), es[ti]? = some t ∧ p t = true ∧
      (∀ c ∈ es, p c = true → key c ≤ key t) ∧
      shootAt es index p key (fun a b => decide (a > b)) =
        some (listModify (listModify es ti
            (fun e => { e with dead := true, just_shot := true })) index
          (fun e => { e with score := e.score + 1 })) := by
  cases hsel : selectTarget (fun a b => decide (a > b)) key (es.filter p) with
  | none =>
      exfalso
      cases hl : es.filter p with
      | nil => exact hne hl
      | cons a as =>
          rw [hl] at hsel
          exact Option.noConfusion hsel
  | some t =>
      have htf : t ∈ es.filter p := selectTarget_mem _ key _ t hsel
      have htes : t ∈ es := (List.mem_filter.mp htf).1
      have htp : p t = true := (List.mem_filter.mp htf).2
      have hmax : ∀ c ∈ es, p c = true → key c ≤ key t := by
        intro c hc hpc
        exact selectTarget_max key _ t hsel c (List.mem_filter.mpr ⟨hc, hpc⟩)
      obtain ⟨ti, h1, h2⟩ := findIdx_by_id t es hnodup htes
      refine ⟨t, ti, h1, htp, hmax, ?_⟩
      unfold shootAt
      rw [hsel]
      dsimp only
      rw [h2]

/-- The shared shoot tail under the ascending sort hits a candidate of
minimal key. -/
theorem shootAt_hit_min (es : List Entity) (index : Nat) (p : Entity → Bool)
    (key : Entity → Int)
    (hnodup : (es.map (fun e => e.id)).Nodup)
    (hne : es.filter p ≠ []) :
    ∃ (t : Entity) (ti : Nat), es[ti]? = some t ∧ p t = true ∧
      (∀ c ∈ es, p c = true → key t ≤ key c) ∧
      shootAt es index p key (fun a b => decide (a < b)) =
        some (listModify (listModify es ti
            (fun e => { e with dead := true, just_shot := true })) index
          (fun e => { e with score := e.score + 1 })) := by
  cases hsel : selectTarget (fun a b => decide (a < b)) key (es.filter p) with
  | none =>
      exfalso
      cases hl : es.filter p with
      | nil => exact hne hl
      | cons a as =>
          rw [hl] at hsel
          exact Option.noConfusion hsel
  | some t =>
      have htf : t ∈ es.filter p := selectTarget_mem _ key _ t hsel
      have htes : t ∈ es := (List.mem_filter.mp htf).1
      have htp : p t = true := (List.mem_filter.mp htf).2
      have hmin : ∀ c ∈ es, p c = true → key t ≤ key c := by
        intro c hc hpc
        exact selectTarget_min key _ t hsel c (List.mem_filter.mpr ⟨hc, hpc⟩)
      obtain ⟨ti, h1, h2⟩ := findIdx_by_id t es hnodup htes
      refine ⟨t, ti, h1, htp, hmin, ?_⟩
      unfold shootAt
      rw [hsel]
      dsimp only
      rw [h2]

/-- Reduction of the shoot branch of the executor, for a live shooter
and an empty assignment store, to the four-way direction dispatch. -/
theorem execute_shoot_reduce (entities : List Entity) (id_ i fresh : Nat)
    (tx ty : Int) (shooter : Entity)
    (hfind : entities.findIdx? (fun e => e.id == id_) = some i)
    (hget : entities[i]? = some shooter)
    (halive : shooter.dead = false) :
    execute_cmd ⟨some .shoot, some (.vint tx), some (.vint ty), []⟩
        entities id_ fresh =
      (if tx < shooter.x then
        shootAt entities i (fun e => decide (e.x < shooter.x) && e.y == shooter.y)
          (fun e => e.x) (fun a b => decide (a > b))
      else if tx > shooter.x then
        shootAt entities i (fun e => decide (e.x > shooter.x) && e.y == shooter.y)
          (fun e => e.x) (fun a b => decide (a < b))
      else if ty < shooter.y then
        shootAt entities i (fun e => decide (e.y < shooter.y) && e.x == shooter.x)
          (fun e => e.y) (fun a b => decide (a > b))
      else if ty > shooter.y then
        shootAt entities i (fun e => decide (e.y > shooter.y) && e.x == shooter.x)
          (fun e => e.y) (fun a b => decide (a < b))
      else some entities) := by
  unfold execute_cmd
  rw [hfind]
  dsimp only
  rw [hget]
  dsimp only
  dsimp only [List.foldl]
  rw [list_set_self entities i shooter hget]
  simp only [halive]
  simp only [pyLt, pyGt, toArithOpt, Option.some_bind]
  by_cases h1 : tx < shooter.x
  · simp [h1]
  · by_cases h2 : tx > shooter.x
    · simp [h1, h2]
    · by_cases h3 : ty < shooter.y
      · simp [h1, h2, h3]
      · by_cases h4 : ty > shooter.y
        · simp [h1, h2, h3, h4]
        · simp [h1, h2, h3, h4]

/-- C5.  A shoot by a live shooter with an integer target point: a target
point equal to the shooter position is a no-op; once a direction is
resolved, if no entity (dead or alive) lies strictly on that side with
the matching other coordinate, nothing changes; otherwise some candidate
of minimal distance along the firing axis is hit — it becomes dead with
the just shot flag and the shooter gains one point — and no candidate is
strictly nearer than the hit one. -/
theorem c5_shoot_nearest (entities : List Entity) (id_ i fresh : Nat)
    (tx ty : Int) (shooter : Entity)
    (hfind : entities.findIdx? (fun e => e.id == id_) = some i)
    (hget : entities[i]? = some shooter)
    (halive : shooter.dead = false)
    (hnodup : (entities.map (fun e => e.id)).Nodup) :
    (tx = shooter.x ∧ ty = shooter.y →
      execute_cmd ⟨some .shoot, some (.vint tx), some (.vint ty), []⟩
          entities id_ fresh = some entities) ∧
    (∀ d, resolveShootDir shooter.x shooter.y tx ty = some d →
      ((∀ e ∈ entities, sCand d shooter e = false) →
        execute_cmd ⟨some .shoot, some (.vint tx), some (.vint ty), []⟩
            entities id_ fresh = some entities) ∧
      ((∃ e0 ∈ entities, sCand d shooter e0 = true) →
        ∃ (t : Entity) (ti : Nat), entities[ti]? = some t ∧
          sCand d shooter t = true ∧
          (∀ c ∈ entities, sCand d shooter c = true →
            sDist d shooter t ≤ sDist d shooter c) ∧
          execute_cmd ⟨some .shoot, some (.vint tx), some (.vint ty), []⟩
              entities id_ fresh
            = some (listModify (listModify entities ti
                (fun e => { e with dead := true, just_shot := true })) i
                (fun e => { e with score := e.score + 1 })))) := by
  have hred := execute_shoot_reduce entities id_ i fresh tx ty shooter
    hfind hget halive
  constructor
  · rintro ⟨hx, hy⟩
    subst hx
    subst hy
    rw [hred]
    simp
  · intro d hd
    cases d with
    | left =>
        have htx : tx < shooter.x := by
          by_contra hng
          unfold resolveShootDir at hd
          rw [if_neg hng] at hd
          split_ifs at hd <;> simp at hd
        constructor
        · intro hnone
          have hfil : entities.filter
              (fun e => decide (e.x < shooter.x) && e.y == shooter.y) = [] := by
            rw [List.filter_eq_nil_iff]
            intro e he
            have h0 : sCand SDir.left shooter e = false := hnone e he
            simpa [sCand] using h0
          rw [hred, if_pos htx]
          exact shootAt_no_candidate entities i _ _ _ hfil
        · rintro ⟨e0, he0, hc0⟩
          have hne : entities.filter
              (fun e => decide (e.x < shooter.x) && e.y == shooter.y) ≠ [] :=
            List.ne_nil_of_mem (List.mem_filter.mpr ⟨he0, hc0⟩)
          obtain ⟨t, ti, h1, htp, hmax, heq⟩ :=
            shootAt_hit_max entities i _ (fun e => e.x) hnodup hne
          refine ⟨t, ti, h1, htp, ?_, ?_⟩
          · intro c hc hpc
            have hkey : c.x ≤ t.x := hmax c hc hpc
            simp only [sDist]
            omega
          · rw [hred, if_pos htx]
            exact heq
    | right =>
        have hn1 : ¬ tx < shooter.x := by
          intro hlt
          unfold resolveShootDir at hd
          rw [if_pos hlt] at hd
          simp at hd
        have htx : tx > shooter.x := by
          by_contra hng
          unfold resolveShootDir at hd
          rw [if_neg hn1, if_neg hng] at hd
          split_ifs at hd <;> simp at hd
        constructor
        · intro hnone
          have hfil : entities.filter
              (fun e => decide (e.x > shooter.x) && e.y == shooter.y) = [] := by
            rw [List.filter_eq_nil_iff]
            intro e he
            have h0 : sCand SDir.right shooter e = false := hnone e he
            simpa [sCand] using h0
          rw [hred, if_neg hn1, if_pos htx]
          exact shootAt_no_candidate entities i _ _ _ hfil
        · rintro ⟨e0, he0, hc0⟩
          have hne : entities.filter
              (fun e => decide (e.x > shooter.x) && e.y == shooter.y) ≠ [] :=
            List.ne_nil_of_mem (List.mem_filter.mpr ⟨he0, hc0⟩)
          obtain ⟨t, ti, h1, htp, hmin, heq⟩ :=
            shootAt_hit_min entities i _ (fun e => e.x) hnodup hne
          refine ⟨t, ti, h1, htp, ?_, ?_⟩
          · intro c hc hpc
            have hkey : t.x ≤ c.x := hmin c hc hpc
            simp only [sDist]
            omega
          · rw [hred, if_neg hn1, if_pos htx]
            exact heq
    | up =>
        have hn1 : ¬ tx < shooter.x := by
          intro hlt
          unfold resolveShootDir at hd
          rw [if_pos hlt] at hd
          simp at hd
        have hn2 : ¬ tx > shooter.x := by
          intro hgt
          unfold resolveShootDir at hd
          rw [if_neg hn1, if_pos hgt] at hd
          simp at hd
        have hty : ty < shooter.y := by
          by_contra hng
          unfold resolveShootDir at hd
          rw [if_neg hn1, if_neg hn2, if_neg hng] at hd
          split_ifs at hd
          all_goals simp at hd
        constructor
        · intro hnone
          have hfil : entities.filter
              (fun e => decide (e.y < shooter.y) && e.x == shooter.x) = [] := by
            rw [List.filter_eq_nil_iff]
            intro e he
            have h0 : sCand SDir.up shooter e = false := hnone e he
            simpa [sCand] using h0
          rw [hred, if_neg hn1, if_neg hn2, if_pos hty]
          exact shootAt_no_candidate entities i _ _ _ hfil
        · rintro ⟨e0, he0, hc0⟩
          have hne : entities.filter
              (fun e => decide (e.y < shooter.y) && e.x == shooter.x) ≠ [] :=
            List.ne_nil_of_mem (List.mem_filter.mpr ⟨he0, hc0⟩)
          obtain ⟨t, ti, h1, htp, hmax, heq⟩ :=
            shootAt_hit_max entities i _ (fun e => e.y) hnodup hne
          refine ⟨t, ti, h1, htp, ?_, ?_⟩
          · intro c hc hpc
            have hkey : c.y ≤ t.y := hmax c hc hpc
            simp only [sDist]
            omega
          · rw [hred, if_neg hn1, if_neg hn2, if_pos hty]
            exact heq
    | down =>
        have hn1 : ¬ tx < shooter.x := by
          intro hlt
          unfold resolveShootDir at hd
          rw [if_pos hlt] at hd
          simp at hd
        have hn2 : ¬ tx > shooter.x := by
          intro hgt
          unfold resolveShootDir at hd
          rw [if_neg hn1, if_pos hgt] at hd
          simp at hd
        have hn3 : ¬ ty < shooter.y := by
          intro hlt
          unfold resolveShootDir at hd
          rw [if_neg hn1, if_neg hn2, if_pos hlt] at hd
          simp at hd
        have hty : ty > shooter.y := by
          by_contra hng
          unfold resolveShootDir at hd
          rw [if_neg hn1, if_neg hn2, if_neg hn3, if_neg hng] at hd
          exact Option.noConfusion hd
        constructor
        · intro hnone
          have hfil : entities.filter
              (fun e => decide (e.y > shooter.y) && e.x == shooter.x) = [] := by
            rw [List.filter_eq_nil_iff]
            intro e he
            have h0 : sCand SDir.down shooter e = false := hnone e he
            simpa [sCand] using h0
          rw [hred, if_neg hn1, if_neg hn2, if_neg hn3, if_pos hty]
          exact shootAt_no_candidate entities i _ _ _ hfil
        · rintro ⟨e0, he0, hc0⟩
          have hne : entities.filter
              (fun e => decide (e.y > shooter.y) && e.x == shooter.x) ≠ [] :=
            List.ne_nil_of_mem (List.mem_filter.mpr ⟨he0, hc0⟩)
          obtain ⟨t, ti, h1, htp, hmin, heq⟩ :=
            shootAt_hit_min entities i _ (fun e => e.y) hnodup hne
          refine ⟨t, ti, h1, htp, ?_, ?_⟩
          · intro c hc hpc
            have hkey : t.y ≤ c.y := hmin c hc hpc
            simp only [sDist]
            omega
          · rw [hred, if_neg hn1, if_neg hn2, if_neg hn3, if_pos hty]
            exact heq

/-- Witness for C5: shooter at 1 1 firing right with two candidates, at
x 3 and x 5 on the same row; the instantiated conclusion asserts the hit
target is a candidate at minimal distance. -/
theorem c5_shoot_nearest_witness :
    ∃ (t : Entity) (ti : Nat),
      ([mkE .player 0 1 1 false, mkE .enemy 1 3 1 false,
        mkE .enemy 2 5 1 false] : List Entity)[ti]? = some t ∧
      sCand .right (mkE .player 0 1 1 false) t = true ∧
      (∀ c ∈ ([mkE .player 0 1 1 false, mkE .enemy 1 3 1 false,
          mkE .enemy 2 5 1 false] : List Entity),
        sCand .right (mkE .player 0 1 1 false) c = true →
        sDist .right (mkE .player 0 1 1 false) t ≤
          sDist .right (mkE .player 0 1 1 false) c) ∧
      execute_cmd ⟨some .shoot, some (.vint 5), some (.vint 1), []⟩
          [mkE .player 0 1 1 false, mkE .enemy 1 3 1 false,
            mkE .enemy 2 5 1 false] 0 99
        = some (listModify (listModify
            [mkE .player 0 1 1 false, mkE .enemy 1 3 1 false,
              mkE .enemy 2 5 1 false] ti
            (fun e => { e with dead := true, just_shot := true })) 0
            (fun e => { e with score := e.score + 1 })) :=
  ((c5_shoot_nearest
      [mkE .player 0 1 1 false, mkE .enemy 1 3 1 false, mkE .enemy 2 5 1 false]
      0 0 99 5 1 (mkE .player 0 1 1 false) rfl rfl rfl (by decide)).2
    .right (by decide)).2
    ⟨mkE .enemy 1 3 1 false, by simp, by decide⟩
